import Mathlib

/-!
Verification development for the natural-language-SQL safety core
(sanitizer / validator / plan runner / write-confirmation workflow).

SQL text is modelled as `List Char`.  Python string/regex operations used by
the source are embedded as executable Lean functions over `List Char`:

* `str.upper()` / `str.lower()`         → `upperStr` / `lowerStr`
* `str.strip()` / `str.rstrip(';')`     → `stripStr` / `rstripSemi`
* `" ".join(sql.split()).upper()`       → `normalizeSql`
* `pat in s` (substring test)           → `containsSub`
* each blocked regex of the sanitizer   → a dedicated matcher, documented at
  its definition

Regex notes shared by the matchers: the sanitizer applies every pattern (with
`re.IGNORECASE`) to the normalized SQL, which is uppercase with every
whitespace run collapsed to one space and no newline; `\b` is a word
boundary, `\s` whitespace, `\w` `[A-Za-z0-9_]`, `\d` a digit.
-/

set_option maxRecDepth 4000

/-- SQL text, modelled as a list of characters. -/
abbrev Str := List Char

/-- Whitespace test used for Python `str.split` / `str.strip` and regex `\s`. -/
def isWsChar (c : Char) : Bool := c.isWhitespace

/-- Regex `\d`: an ASCII decimal digit. -/
def isDigitChar (c : Char) : Bool := c.isDigit

/-- Regex `\w`: `[A-Za-z0-9_]`. -/
def isWordChar (c : Char) : Bool :=
  (('A' ≤ c && c ≤ 'Z') || ('a' ≤ c && c ≤ 'z') || ('0' ≤ c && c ≤ '9') || c = '_')

/-- Python `str.upper()` (ASCII model). -/
def upperStr (l : Str) : Str := l.map Char.toUpper

/-- Python `str.lower()` (ASCII model). -/
def lowerStr (l : Str) : Str := l.map Char.toLower

/-- Python `str.strip()`: drop leading and trailing whitespace. -/
def stripStr (l : Str) : Str :=
  ((l.dropWhile isWsChar).reverse.dropWhile isWsChar).reverse

/-- Python `str.rstrip(';')`: drop trailing semicolons. -/
def rstripSemi (l : Str) : Str :=
  (l.reverse.dropWhile (fun c => c = ';')).reverse

/-- Substring containment: `pat in l` for Python strings. -/
def containsSub (l pat : Str) : Bool :=
  l.tails.any (fun t => pat.isPrefixOf t)

/-- Worker for `wordsWs`: `cur` holds the current word, reversed. -/
def wordsAux : Str → Str → List Str
  | cur, [] => if cur.isEmpty then [] else [cur.reverse]
  | cur, c :: t =>
    if isWsChar c then
      if cur.isEmpty then wordsAux [] t else cur.reverse :: wordsAux [] t
    else wordsAux (c :: cur) t

/-- Python `str.split()`: maximal runs of non-whitespace characters. -/
def wordsWs (l : Str) : List Str := wordsAux [] l

/-- Sanitizer normalization `" ".join(sql.split()).upper()`. -/
def normalizeSql (l : Str) : Str :=
  upperStr ((List.intersperse ([' '] : Str) (wordsWs l)).flatten)

/-- Head of a list is a whitespace character (used for regex `\s+` after a literal). -/
def headIsWs : Str → Bool
  | [] => false
  | c :: _ => isWsChar c

/-- Literal keyword followed by at least one whitespace character (`KW\s+` at this position). -/
def kwThenWs (k l : Str) : Bool :=
  k.isPrefixOf l && headIsWs (l.drop k.length)

/-- Literal keyword, then `\s*`, then a literal `(` (`KW\s*\(` at this position). -/
def kwThenWsParen (k l : Str) : Bool :=
  k.isPrefixOf l && ((l.drop k.length).dropWhile isWsChar).head? = some '('

/-- Literal keyword followed by a word boundary (`KW\b` at this position). -/
def kwThenBoundary (k l : Str) : Bool :=
  k.isPrefixOf l &&
    (match (l.drop k.length).head? with
     | some c => !isWordChar c
     | none => true)

/-- Scan for a position satisfying `test`, preceded by a word boundary (`\b`):
either the very start of the text or a non-word character. -/
def scanBoundary (test : Str → Bool) : Bool → Str → Bool
  | _, [] => false
  | bnd, c :: t => (bnd && test (c :: t)) || scanBoundary test (!isWordChar c) t

def ddlKeywords : List Str :=
  ["DROP".data, "CREATE".data, "ALTER".data, "TRUNCATE".data, "RENAME".data]

/-- Sanitizer pattern `\b(DROP|CREATE|ALTER|TRUNCATE|RENAME)\s+`. -/
def matchDdl (l : Str) : Bool :=
  scanBoundary (fun r => ddlKeywords.any (fun k => kwThenWs k r)) true l

def sysCmdKeywords : List Str :=
  ["EXECUTE".data, "EXEC".data, "XP_CMDSHELL".data, "SP_EXECUTESQL".data]

/-- Sanitizer pattern `\b(EXECUTE|EXEC|xp_cmdshell|sp_executesql)\s*\(`. -/
def matchSysCmd (l : Str) : Bool :=
  scanBoundary (fun r => sysCmdKeywords.any (fun k => kwThenWsParen k r)) true l

/-- Sanitizer pattern `--` (single-line SQL comment). -/
def matchComment (l : Str) : Bool := containsSub l ("--".data)

/-- Sanitizer pattern `/\*.*?\*/`: an opening `/*` with a closing `*/` after it
(the normalized SQL has no newline, so `.` reaches every character). -/
def matchMLComment (l : Str) : Bool :=
  l.tails.any (fun t => ("/*".data).isPrefixOf t && containsSub (t.drop 2) ("*/".data))

/-- Sanitizer pattern `;\s*\w+`: a semicolon, optional whitespace, then a word
character (a further statement). -/
def matchMultiStmt (l : Str) : Bool :=
  l.tails.any (fun t =>
    t.head? = some ';' &&
      (match ((t.drop 1).dropWhile isWsChar).head? with
       | some c => isWordChar c
       | none => false))

/-- Negative-lookahead body `\s+.*\s+FROM\s+\(` checked at a tail position:
`\s+FROM\s+\(` starting here. -/
def wsFromParenAt (l : Str) : Bool :=
  (l.takeWhile isWsChar) ≠ [] &&
    (let r := l.dropWhile isWsChar
     ("FROM".data).isPrefixOf r &&
       ((r.drop 4).takeWhile isWsChar) ≠ [] &&
       ((r.drop 4).dropWhile isWsChar).head? = some '(')

/-- Lookahead `\s+.*\s+FROM\s+\(` after `SELECT`: one leading whitespace
character, then `\s+FROM\s+\(` matching at some strictly later position
(`.*` absorbs the characters in between; the normalized SQL has no newline). -/
def lookFromParen : Str → Bool
  | [] => false
  | c :: t =>
    isWsChar c && (List.range (t.length + 1)).any (fun i => wsFromParenAt ((c :: t).drop (i + 1)))

/-- The `SELECT` tail of the UNION pattern with its negative lookahead
`SELECT(?!\s+.*\s+FROM\s+\()`. -/
def unionSelectAt (r : Str) : Bool :=
  ("SELECT".data).isPrefixOf r && !lookFromParen (r.drop 6)

/-- Sanitizer pattern `UNION\s+(?:ALL\s+)?SELECT(?!\s+.*\s+FROM\s+\()`. -/
def matchUnionInj (l : Str) : Bool :=
  l.tails.any (fun t =>
    ("UNION".data).isPrefixOf t &&
      (let r := t.drop 5
       (r.takeWhile isWsChar) ≠ [] &&
         (let r1 := r.dropWhile isWsChar
          (("ALL".data).isPrefixOf r1 &&
              ((r1.drop 3).takeWhile isWsChar) ≠ [] &&
              unionSelectAt ((r1.drop 3).dropWhile isWsChar)) ||
            unionSelectAt r1)))

/-- Sanitizer pattern `\binformation_schema\b` (uppercased by normalization). -/
def matchInfoSchema (l : Str) : Bool :=
  scanBoundary (kwThenBoundary ("INFORMATION_SCHEMA".data)) true l

def pgFuncKeywords : List Str :=
  ["PG_READ_FILE".data, "PG_LS_DIR".data, "PG_SLEEP".data, "LO_IMPORT".data, "LO_EXPORT".data]

/-- Sanitizer pattern `\b(pg_read_file|pg_ls_dir|pg_sleep|lo_import|lo_export)\s*\(`. -/
def matchPgFunc (l : Str) : Bool :=
  scanBoundary (fun r => pgFuncKeywords.any (fun k => kwThenWsParen k r)) true l

/-- Sanitizer pattern `\b(LOAD_FILE|INTO\s+OUTFILE|INTO\s+DUMPFILE)\b`. -/
def matchMysqlFunc (l : Str) : Bool :=
  scanBoundary
    (fun r =>
      kwThenBoundary ("LOAD_FILE".data) r ||
        (("INTO".data).isPrefixOf r &&
          (let r2 := r.drop 4
           (r2.takeWhile isWsChar) ≠ [] &&
             (kwThenBoundary ("OUTFILE".data) (r2.dropWhile isWsChar) ||
               kwThenBoundary ("DUMPFILE".data) (r2.dropWhile isWsChar)))))
    true l

/-- Hex digit for the obfuscation patterns (`[0-9a-fA-F]`). -/
def isHexChar (c : Char) : Bool :=
  c.isDigit || ('A' ≤ c && c ≤ 'F') || ('a' ≤ c && c ≤ 'f')

/-- Sanitizer pattern `0x[0-9a-fA-F]+` (normalization uppercases the `x`). -/
def matchHexEnc (l : Str) : Bool :=
  l.tails.any (fun t =>
    ("0X".data).isPrefixOf t &&
      (match (t.drop 2).head? with
       | some c => isHexChar c
       | none => false))

/-- Sanitizer pattern `\\u[0-9a-fA-F]{4}` (normalization uppercases the `u`). -/
def matchUnicodeEnc (l : Str) : Bool :=
  l.tails.any (fun t =>
    t.head? = some '\\' &&
      (t.drop 1).head? = some 'U' &&
      ((t.drop 2).take 4).length = 4 &&
      ((t.drop 2).take 4).all isHexChar)

def dmlDescr : String := "DML operation"

/-- `SQLSanitizer.BLOCKED_PATTERNS`: the ordered pattern list with its category
descriptions, each regex replaced by its matcher above. -/
def blockedPatterns : List ((Str → Bool) × String) :=
  [(matchDdl, "DDL operation"),
   (matchSysCmd, "System command"),
   (matchComment, "SQL comment"),
   (matchMLComment, "Multi-line comment"),
   (matchMultiStmt, "Multiple statements"),
   (matchUnionInj, "UNION injection"),
   (matchInfoSchema, "Information schema access"),
   (matchPgFunc, "PostgreSQL dangerous function"),
   (matchMysqlFunc, "MySQL dangerous function"),
   (matchHexEnc, "Hex encoding"),
   (matchUnicodeEnc, "Unicode encoding")]

/-- The patterns skipped in non-strict mode (`lenient_patterns` in `is_safe`). -/
def lenientPatterns : List String :=
  ["SQL comment", "Multi-line comment", "Hex encoding", "Unicode encoding"]

def blockedMsgHead : String := "Blocked pattern detected: "

/-- `SQLSanitizer.is_safe`, violation list: normalizes the SQL, then collects a
violation for every blocked pattern that matches, skipping the (nonexistent)
"DML operation" pattern when `allow_write` and the lenient patterns when not
`strict_mode`.  `is_safe` itself returns `(violations.isEmpty, violations)`. -/
def isSafeViolations (sql : Str) (allow_write strict_mode : Bool) : List String :=
  let nsql := normalizeSql sql
  blockedPatterns.filterMap (fun pd =>
    if allow_write && pd.2 == dmlDescr then none
    else if !strict_mode && lenientPatterns.contains pd.2 then none
    else if pd.1 nsql then some (blockedMsgHead ++ pd.2) else none)

/-! ## Validator (`app/core/query/validator.py`) -/

/-- Failure cases raised by the validator pipeline (`QueryValidationError`,
`SQLInjectionAttempt`, `QuerySyntaxError`; `ReadOnlyViolation` is defined by
the source but never raised). -/
inductive VError where
  | emptyQuery : VError
  | intentMismatch (intent generated : String) : VError
  | injectionDetected (violations : List String) : VError
  | syntaxInvalid : VError
  | multipleStatements (count : Nat) : VError
deriving DecidableEq, Repr

deriving instance DecidableEq for Except

def insertKeywords : List Str := ["add".data, "create".data, "insert".data, "new".data, "register".data]
def deleteKeywords : List Str := ["delete".data, "remove".data, "drop user".data]
def updateKeywords : List Str := ["update".data, "change".data, "modify".data, "set".data, "edit".data]

/-- `QueryValidator.validate_operation_intent`: compares keyword families in
the lowercased question against the uppercased SQL prefix; an insert-intent
with DELETE SQL, or a delete-intent with INSERT SQL, raises a
`QueryValidationError`; the update-intent mismatch only logs a warning. -/
def validate_operation_intent (sql original_question : Str) : Except VError Unit :=
  let question_lower := lowerStr original_question
  let sql_upper := upperStr (stripStr sql)
  let is_insert := ("INSERT".data).isPrefixOf sql_upper
  let is_delete := ("DELETE".data).isPrefixOf sql_upper
  let user_wants_insert := insertKeywords.any (fun k => containsSub question_lower k)
  let user_wants_delete := deleteKeywords.any (fun k => containsSub question_lower k)
  if user_wants_insert && is_delete then .error (.intentMismatch "INSERT" "DELETE")
  else if user_wants_delete && is_insert then .error (.intentMismatch "DELETE" "INSERT")
  else .ok ()

/-- Worker for `splitStatements`; `inQuote` holds the open quote character,
`acc` the current chunk in reverse. -/
def splitStmtsGo : Option Char → Str → Str → List Str
  | _, acc, [] => if acc.any (fun c => !isWsChar c) then [acc.reverse] else []
  | some q, acc, c :: t =>
    if c = q then splitStmtsGo none (c :: acc) t else splitStmtsGo (some q) (c :: acc) t
  | none, acc, c :: t =>
    if c = '\'' || c = '"' then splitStmtsGo (some c) (c :: acc) t
    else if c = ';' then (c :: acc).reverse :: splitStmtsGo none [] t
    else splitStmtsGo none (c :: acc) t

/-- Model of `sqlparse.parse` at the granularity the validator consumes (a
third-party library, not part of this repository): the statement list is the
input split after every semicolon that is outside a quoted literal, keeping
the semicolon with its statement; a whitespace-only trailing remainder yields
no statement. -/
def splitStatements (l : Str) : List Str := splitStmtsGo none [] l

/-- First run of word characters after leading whitespace; stands for the
first significant token of a parsed statement. -/
def firstWord (l : Str) : Str := (l.dropWhile isWsChar).takeWhile isWordChar

def dmlKeywordList : List Str := ["SELECT".data, "INSERT".data, "UPDATE".data, "DELETE".data]

/-- `QueryValidator._is_select_statement`: a DML first token must be SELECT;
a `WITH` first token (CTE) is a select when the statement text contains
SELECT; anything else is not a select. -/
def is_select_statement (stmt : Str) : Bool :=
  let w := upperStr (firstWord stmt)
  if dmlKeywordList.contains w then w == "SELECT".data
  else if w == "WITH".data then containsSub (upperStr stmt) ("SELECT".data)
  else false

/-- Decimal digit character for `d < 10` (wildcard at 9). -/
def digitChar : Nat → Char
  | 0 => '0' | 1 => '1' | 2 => '2' | 3 => '3' | 4 => '4'
  | 5 => '5' | 6 => '6' | 7 => '7' | 8 => '8' | _ => '9'

/-- Fuelled decimal printer (structural recursion so that proofs can evaluate it). -/
def natDigitsF : Nat → Nat → Str
  | 0, _ => []
  | f + 1, n => if n < 10 then [digitChar n] else natDigitsF f (n / 10) ++ [digitChar (n % 10)]

/-- Decimal digit string of a natural number, as Python `str.format` renders it. -/
def natDigits (n : Nat) : Str := natDigitsF (n + 1) n

/-- Value of a digit string, as Python `int()` reads it. -/
def parseNatDigits (ds : Str) : Nat := ds.foldl (fun a c => a * 10 + (c.toNat - 48)) 0

/-- Case-insensitive literal prefix match (regex with `re.IGNORECASE`). -/
def ciPrefixOf : Str → Str → Bool
  | [], _ => true
  | _ :: _, [] => false
  | p :: ps, c :: cs => (p.toUpper == c.toUpper) && ciPrefixOf ps cs

/-- Case-insensitive substring occurrence. -/
def ciContains (l pat : Str) : Bool := l.tails.any (fun t => ciPrefixOf pat t)

def limitWord : Str := "LIMIT".data

/-- Match of `LIMIT\s+(\d+)` anchored at the head of `l` (case-insensitive):
returns the captured value and the matched length.  Matching the pattern on
`sql.upper()` — as `_enforce_limit` does — is the same as matching it
case-insensitively on `sql`, since `\s` and `\d` are unchanged by upcasing. -/
def limitSpanCI (l : Str) : Option (Nat × Nat) :=
  if ciPrefixOf limitWord l then
    let r := l.drop 5
    let w := r.takeWhile isWsChar
    if w.isEmpty then none
    else
      let ds := (r.dropWhile isWsChar).takeWhile isDigitChar
      if ds.isEmpty then none
      else some (parseNatDigits ds, 5 + w.length + ds.length)
  else none

/-- `re.search(r'LIMIT\s+(\d+)', sql.upper())`: value of the leftmost match. -/
def findLimitCI : Str → Option Nat
  | [] => none
  | c :: t =>
    match limitSpanCI (c :: t) with
    | some vn => some vn.1
    | none => findLimitCI t

/-- Fuelled worker for `clampAll` (fuel ≥ length always suffices, since every
step consumes at least one character). -/
def clampAllF (m : Nat) : Nat → Str → Str
  | 0, _ => []
  | _, [] => []
  | f + 1, c :: t =>
    match limitSpanCI (c :: t) with
    | some vn => (limitWord ++ (' ' :: natDigits m)) ++ clampAllF m f (t.drop (vn.2 - 1))
    | none => c :: clampAllF m f t

/-- `re.sub(r'LIMIT\s+\d+', f'LIMIT max', sql, flags=re.IGNORECASE)`: replace
every non-overlapping match, scanning left to right. -/
def clampAll (m : Nat) (l : Str) : Str := clampAllF m l.length l

/-- Configuration values consumed by the validator (`app/config.py`). -/
structure Settings where
  MAX_QUERY_RESULTS : Nat
  DEFAULT_QUERY_LIMIT : Nat
deriving DecidableEq, Repr

/-- `QueryValidator._enforce_limit`: if the uppercased SQL contains the token
LIMIT, the first `LIMIT\s+(\d+)` match above the maximum causes every such
match to be replaced by the maximum (and any other case leaves the SQL
unchanged); otherwise trailing semicolons are stripped and
` LIMIT default` is appended. -/
def enforce_limit (st : Settings) (sql : Str) : Str :=
  if containsSub (upperStr sql) limitWord then
    match findLimitCI sql with
    | some v => if st.MAX_QUERY_RESULTS < v then clampAll st.MAX_QUERY_RESULTS sql else sql
    | none => sql
  else
    rstripSemi sql ++ (' ' :: (limitWord ++ (' ' :: natDigits st.DEFAULT_QUERY_LIMIT)))

/-- `QueryValidator.validate`: strip; (optionally) run the intent check whose
failure is caught and only logged; run the sanitizer with
`allow_write = not read_only, strict_mode = read_only`, surfacing its failure
only in read-only mode; parse; reject zero or multiple statements; apply
LIMIT enforcement to SELECT statements in read-only mode. -/
def validate (st : Settings) (sqlIn : Str) (read_only : Bool)
    (original_question : Option Str) (strict_validation : Bool) : Except VError Str :=
  if (stripStr sqlIn).isEmpty then .error .emptyQuery
  else
    let sql := stripStr sqlIn
    -- Step 2 of the source: the intent-check failure is caught inside
    -- `validate` and logged as a warning, so it cannot affect the result.
    let _logged_intent_warning : Bool :=
      if strict_validation && original_question.isSome && !read_only then
        (validate_operation_intent sql (original_question.getD [])).isOk
      else true
    let violations := isSafeViolations sql (!read_only) read_only
    if read_only && !violations.isEmpty then .error (.injectionDetected violations)
    else
      let parsed := splitStatements sql
      if parsed.isEmpty then .error .syntaxInvalid
      else if 1 < parsed.length then .error (.multipleStatements parsed.length)
      else
        let statement := parsed.headD []
        if is_select_statement statement && read_only then .ok (enforce_limit st sql)
        else .ok sql

def cfgSettings : Settings := Settings.mk 1000 100

/-! ## Write-confirmation workflow
(`app/core/query/write_operation_handler.py` and the `/query/write/execute`
endpoint in `app/api/v1/endpoints/query.py`).

The database is modelled as the list of user ids in `users` plus the audit
table; the side effects issued against the connection are recorded as an
ordered operation trace.  The cascade-impact probes (`COUNT` queries over
`orders`/`order_items`) are pure reads and are represented by one trace
entry. -/

/-- One row of the `audit_log` table, at the granularity the claims need. -/
structure AuditEntry where
  operation_type : String
  table_name : String
  record_id : Nat
deriving DecidableEq, Repr

/-- Database state touched by the delete workflow. -/
structure DbState where
  users : List Nat
  audit_log : List AuditEntry
deriving DecidableEq, Repr

/-- Operations issued on the connection, in order. -/
inductive DbOp where
  | fetchUserRow (id : Nat) : DbOp
  | impactProbe (id : Nat) : DbOp
  | auditInsert (id : Nat) : DbOp
  | deleteUser (id : Nat) : DbOp
deriving DecidableEq, Repr

/-- Result dictionary of `execute_delete_user`. -/
structure DeleteOutcome where
  user_id : Nat
  deleted_count : Nat
  audit_logged : Bool
deriving DecidableEq, Repr

def userNotFoundMsg : String := "User not found"

/-- `WriteOperationHandler.execute_delete_user`: fetch the user row; if it is
missing, raise before any other statement; otherwise compute the cascade
impact, insert one audit row (`_log_to_audit`), then issue the DELETE, all on
the same connection inside the caller's transaction.  Returns the outcome,
the new state and the operation trace. -/
def execute_delete_user (user_id : Nat) (db : DbState) :
    Except String DeleteOutcome × DbState × List DbOp :=
  if user_id ∈ db.users then
    let entry : AuditEntry := AuditEntry.mk "delete_user" "users" user_id
    let deleted := db.users.count user_id
    (Except.ok (DeleteOutcome.mk user_id deleted true),
     DbState.mk (db.users.filter (fun i => i ≠ user_id)) (db.audit_log ++ [entry]),
     [DbOp.fetchUserRow user_id, DbOp.impactProbe user_id,
      DbOp.auditInsert user_id, DbOp.deleteUser user_id])
  else
    (Except.error userNotFoundMsg, db, [DbOp.fetchUserRow user_id])

/-- `WriteConfirmationRequest` (`app/models/query.py`): the request body of
`/query/write/execute`. -/
structure WriteConfirmationRequest where
  user_id : Nat
  operation_type : String
  confirmed : Bool
deriving DecidableEq, Repr

/-- `execute_confirmed_write_operation` (`/query/write/execute`): opens a
transaction and calls `execute_delete_user` with the request's `user_id`.
The endpoint body never inspects `request.confirmed`. -/
def execute_confirmed_write_operation (request : WriteConfirmationRequest) (db : DbState) :
    Except String DeleteOutcome × DbState × List DbOp :=
  execute_delete_user request.user_id db

/-! ## Multi-step plan runner
(the `requires_dependency_resolution` branch of `natural_language_query` in
`app/api/v1/endpoints/query.py`, lines 170-260).

The planner module (`app.core.ai.query_planner`) and the `QueryStep` response
model are imported by the endpoint but absent from the source tree; their
record shapes are modelled from the spec: a QueryStep carries a 1-based step
number, SQL text, explanation, `depends_on_previous` and `check_existence`
flags, and — on the response side — a skipped flag, skip reason and optional
execution result. -/

/-- One row of an execution result: column name to integer value (the only
value shape the claims inspect is the `count` column). -/
abbrev Row := List (String × Int)

/-- Modelled from the spec: a step of a generated `QueryPlan` (the planner
module is absent from the source tree; shape per spec §3 QueryStep). -/
structure PlanStep where
  step_number : Nat
  sql : Str
  explanation : String
  depends_on_previous : Bool
  check_existence : Bool
deriving DecidableEq, Repr

/-- Modelled from the spec: a `QueryStep` of the response (the model is
imported from `app.models.query` but absent from the source tree). -/
structure QueryStepOut where
  step_number : Nat
  sql : Str
  explanation : String
  execution_result : Option (List Row)
  skipped : Bool
  skip_reason : Option String
deriving DecidableEq, Repr

def countKey : String := "count"

def entityExistsReason : String := "Entity already exists"

/-- `results and results[0].get('count', 0) > 0`. -/
def entityExists (results : List Row) : Bool :=
  match results with
  | [] => false
  | r :: _ =>
    match r.find? (fun p => p.1 == countKey) with
    | some p => 0 < p.2
    | none => false

/-- Whether the last recorded response step is skipped
(`query_steps_list and query_steps_list[-1].skipped`). -/
def lastSkipped (acc : List QueryStepOut) : Bool :=
  match acc.getLast? with
  | some q => q.skipped
  | none => false

/-- The per-step loop of the multi-step branch.  `validateF` is the validator
call made for every step (before any skip decision), `execF` the executor;
`allSteps` is the full plan (indexed by `steps[plan_step.step_number]`, the
0-based successor of a 1-based step number).  Returns the recorded response
steps and the trace of SQL strings passed to the executor. -/
def runPlanGo (validateF : Str → Except VError Str) (execF : Str → List Row)
    (allSteps : List PlanStep) :
    List PlanStep → List QueryStepOut → List Str → Except VError (List QueryStepOut × List Str)
  | [], acc, trace => Except.ok (acc, trace)
  | s :: rest, acc, trace =>
    match validateF s.sql with
    | Except.error e => Except.error e
    | Except.ok v =>
      if s.check_existence then
        let results := execF v
        let acc1 := acc ++
          [QueryStepOut.mk s.step_number v s.explanation (some results) false none]
        let trace1 := trace ++ [v]
        if entityExists results && s.step_number < allSteps.length then
          match allSteps[s.step_number]? with
          | some next =>
            if next.depends_on_previous then
              runPlanGo validateF execF allSteps rest
                (acc1 ++
                  [QueryStepOut.mk next.step_number next.sql next.explanation none true
                    (some entityExistsReason)])
                trace1
            else runPlanGo validateF execF allSteps rest acc1 trace1
          | none => runPlanGo validateF execF allSteps rest acc1 trace1
        else runPlanGo validateF execF allSteps rest acc1 trace1
      else
        if !acc.isEmpty && lastSkipped acc && s.depends_on_previous then
          runPlanGo validateF execF allSteps rest acc trace
        else
          let results := execF v
          runPlanGo validateF execF allSteps rest
            (acc ++ [QueryStepOut.mk s.step_number v s.explanation (some results) false none])
            (trace ++ [v])

/-- Execution of a whole multi-step plan. -/
def runPlan (validateF : Str → Except VError Str) (execF : Str → List Row)
    (steps : List PlanStep) : Except VError (List QueryStepOut × List Str) :=
  runPlanGo validateF execF steps steps [] []

/-- Lines 258-260 of the endpoint: the externally reported SQL is
`query_plan.steps[-1].sql` (the raw final plan step), and the reported
execution result is that of the last recorded response step when it is
truthy, else `None`. -/
def reportPlan (steps : List PlanStep) (outs : List QueryStepOut) :
    Str × Option (List Row) :=
  ((steps.getLast?.map (fun s => s.sql)).getD [],
   match outs.getLast? with
   | some q => q.execution_result
   | none => none)

/-! ## Concrete inputs used by witnesses and counterexamples -/

def deleteId3Sql : Str := "DELETE FROM users WHERE id = 3".data
def dropTableSql : Str := "DROP TABLE users".data
def deleteBobSql : Str := "DELETE FROM users WHERE name = 'bob'".data
def addUserQ : Str := "add a user bob".data
def insertBobSql : Str := "INSERT INTO users (username) VALUES ('bob')".data
def removeBobQ : Str := "remove user bob".data
def multiStmtSql : Str := "DELETE FROM users WHERE id=3; DROP TABLE users;".data

def ddlViolationMsg : String := blockedMsgHead ++ "DDL operation"

def c9probe : Str := "SELECT COUNT(*) AS count FROM users WHERE username = 'bob'".data
def c9insert : Str := "INSERT INTO users (username) VALUES ('bob')".data
def c9exec : Str → List Row := fun s => if s == c9probe then [[(countKey, (1 : Int))]] else []
def c9plan : List PlanStep :=
  [PlanStep.mk 1 c9probe "probe" false true, PlanStep.mk 2 c9insert "insert" true false]
def c9outs : List QueryStepOut :=
  [QueryStepOut.mk 1 c9probe "probe" (some [[(countKey, (1 : Int))]]) false none,
   QueryStepOut.mk 2 c9insert "insert" none true (some entityExistsReason)]

/-- The last step of a plan run that was not skipped. -/
def lastNonSkipped (outs : List QueryStepOut) : Option QueryStepOut :=
  (outs.filter (fun q => !q.skipped)).getLast?

/-- Pointwise case-insensitive equality of equal-length strings. -/
def ciEqL : Str → Str → Bool
  | [], [] => true
  | _ :: _, [] => false
  | [], _ :: _ => false
  | a :: as, b :: bs => (a.toUpper == b.toUpper) && ciEqL as bs


/-! ## Claim C3 -/

/-- C3: claimed — with `read_only = true`, every non-SELECT statement is
rejected as a read-only violation.  The code has no such check ("Step 4:
Allow all statement types"; `ReadOnlyViolation` is imported but never
raised): a plain DELETE is returned as validated SQL in read-only mode, for
every configuration. -/
theorem C3_readonly_delete_returned_as_validated :
    ∀ st : Settings,
      validate st deleteId3Sql true none false = Except.ok deleteId3Sql := by
  intro st
  rfl

/-! ## Claim C2 -/

/-- C2: claimed — the write-execute endpoint performs the delete only on
explicit confirmation (`confirmed = true`).  The endpoint never inspects the
`confirmed` flag: with `confirmed = false` and user 4 present, the DELETE is
still executed and the audit row still written. -/
theorem C2_unconfirmed_request_still_deletes :
    (WriteConfirmationRequest.mk 4 "delete_user" false).confirmed = false ∧
      execute_confirmed_write_operation (WriteConfirmationRequest.mk 4 "delete_user" false)
          (DbState.mk [4] []) =
        (Except.ok (DeleteOutcome.mk 4 1 true),
         DbState.mk [] [AuditEntry.mk "delete_user" "users" 4],
         [DbOp.fetchUserRow 4, DbOp.impactProbe 4, DbOp.auditInsert 4, DbOp.deleteUser 4]) := by
  exact ⟨rfl, by decide⟩

/-! ## Claim C5 -/

/-- C5: confirmed — `execute_delete_user` writes exactly one audit row per
successful delete, with the audit insert issued strictly before the DELETE on
the same connection (inside the caller's transaction), and aborts with a
not-found error before any mutation or audit write when the target id does
not exist. -/
theorem C5_one_audit_before_delete_nonexistent_aborts :
    ∀ (user_id : Nat) (db : DbState),
      (user_id ∉ db.users →
        execute_delete_user user_id db =
          (Except.error userNotFoundMsg, db, [DbOp.fetchUserRow user_id])) ∧
      (user_id ∈ db.users →
        execute_delete_user user_id db =
          (Except.ok (DeleteOutcome.mk user_id (db.users.count user_id) true),
           DbState.mk (db.users.filter (fun i => i ≠ user_id))
             (db.audit_log ++ [AuditEntry.mk "delete_user" "users" user_id]),
           [DbOp.fetchUserRow user_id, DbOp.impactProbe user_id,
            DbOp.auditInsert user_id, DbOp.deleteUser user_id])) := by
  intro user_id db
  constructor
  · intro h
    simp [execute_delete_user, h]
  · intro h
    simp [execute_delete_user, h]

/-- Witness for C5 at user id 4 present in `[4, 7]` and id 5 absent. -/
theorem C5_witness :
    execute_delete_user 5 (DbState.mk [4, 7] []) =
        (Except.error userNotFoundMsg, DbState.mk [4, 7] [], [DbOp.fetchUserRow 5]) ∧
      execute_delete_user 4 (DbState.mk [4, 7] []) =
        (Except.ok (DeleteOutcome.mk 4 1 true),
         DbState.mk [7] [AuditEntry.mk "delete_user" "users" 4],
         [DbOp.fetchUserRow 4, DbOp.impactProbe 4, DbOp.auditInsert 4, DbOp.deleteUser 4]) := by
  constructor
  · exact (C5_one_audit_before_delete_nonexistent_aborts 5 (DbState.mk [4, 7] [])).1 (by decide)
  · have h := (C5_one_audit_before_delete_nonexistent_aborts 4 (DbState.mk [4, 7] [])).2 (by decide)
    simpa using h

/-! ## Claim C1 -/

/-- C1: counterexample to the claim as stated.  A validation call with
`read_only = false`, an original request containing the insert-family keyword
`add`, and a DELETE candidate SQL — with strict intent checking even enabled —
does not fail: `validate` returns the SQL as validated. -/
theorem C1_counterexample :
    insertKeywords.any (fun k => containsSub (lowerStr addUserQ) k) = true ∧
      ("DELETE".data).isPrefixOf (upperStr (stripStr deleteBobSql)) = true ∧
      validate cfgSettings deleteBobSql false (some addUserQ) true = Except.ok deleteBobSql := by
  exact ⟨by decide, by decide, by decide⟩

/-- C1: amended — `validate_operation_intent` itself raises a fatal error on
an Insert-vs-Delete mismatch in either direction, but `validate` runs it only
when `strict_validation` is set and, even then, catches the error and merely
logs it: the result of `validate` is entirely independent of the original
question and the strict flag, so the mismatch never blocks validation. -/
theorem C1_intent_error_raised_by_helper_but_never_blocks :
    ∀ (sql q : Str) (st : Settings) (ro : Bool) (oq : Option Str) (sv : Bool),
      (insertKeywords.any (fun k => containsSub (lowerStr q) k) = true →
        ("DELETE".data).isPrefixOf (upperStr (stripStr sql)) = true →
        (validate_operation_intent sql q).isOk = false) ∧
      (deleteKeywords.any (fun k => containsSub (lowerStr q) k) = true →
        ("INSERT".data).isPrefixOf (upperStr (stripStr sql)) = true →
        (validate_operation_intent sql q).isOk = false) ∧
      validate st sql ro oq sv = validate st sql ro none false := by
  intro sql q st ro oq sv
  refine ⟨?_, ?_, rfl⟩
  · intro h1 h2
    simp only [validate_operation_intent, h1, h2, Bool.true_and, Bool.and_true, Bool.and_self]
    rfl
  · intro h1 h2
    simp only [validate_operation_intent, h1, h2, Bool.and_true]
    split
    · rfl
    · rfl

/-- Witness for C1's amended theorem: both mismatch directions raise inside
the helper, at the concrete scenario inputs. -/
theorem C1_witness :
    (validate_operation_intent deleteBobSql addUserQ).isOk = false ∧
      (validate_operation_intent insertBobSql removeBobQ).isOk = false := by
  constructor
  · exact (C1_intent_error_raised_by_helper_but_never_blocks deleteBobSql addUserQ cfgSettings
      false none false).1 (by decide) (by decide)
  · exact (C1_intent_error_raised_by_helper_but_never_blocks insertBobSql removeBobQ cfgSettings
      false none false).2.1 (by decide) (by decide)

/-! ## Claim C4 -/

/-- C4: counterexample to the claim as stated.  The sanitizer flags
`DROP TABLE users` (a DDL pattern) for every flag combination, yet
`validate` with `read_only = false` catches the sanitizer failure, logs it,
and returns the SQL as validated: DDL is not "always blocked". -/
theorem C4_counterexample :
    isSafeViolations dropTableSql true false = [ddlViolationMsg] ∧
      validate cfgSettings dropTableSql false none false = Except.ok dropTableSql := by
  exact ⟨by decide, by decide⟩

/-- C4: amended — sanitizer failures are surfaced verbatim as rejections only
in read-only mode; the sanitizer's own verdict is independent of
`allow_write` (its skip rule names a "DML operation" description no pattern
carries), so the DDL pattern is flagged at the sanitizer level for every
flag combination — but the validator enforces it only when
`read_only = true`. -/
theorem C4_sanitizer_surfaced_only_in_read_only_mode :
    ∀ (st : Settings) (sql : Str) (oq : Option Str) (sv : Bool) (aw aw' sm : Bool),
      (isSafeViolations (stripStr sql) false true ≠ [] →
        validate st sql true oq sv =
          Except.error (VError.injectionDetected (isSafeViolations (stripStr sql) false true))) ∧
      isSafeViolations sql aw sm = isSafeViolations sql aw' sm ∧
      (matchDdl (normalizeSql sql) = true →
        ddlViolationMsg ∈ isSafeViolations sql aw sm) := by
  intro st sql oq sv aw aw' sm
  refine ⟨?_, ?_, ?_⟩
  · intro h
    have hne : (stripStr sql).isEmpty = false := by
      cases he : (stripStr sql).isEmpty
      · rfl
      · exfalso
        apply h
        rw [List.isEmpty_iff] at he
        rw [he]
        decide
    simp only [validate, hne, Bool.false_eq_true, if_false]
    simp [h]
  · cases aw <;> cases aw' <;> cases sm <;>
      simp [isSafeViolations, blockedPatterns, lenientPatterns, dmlDescr,
        List.filterMap_cons, List.filterMap_nil]
  · intro h
    cases aw <;> cases sm <;>
      simp [isSafeViolations, blockedPatterns, lenientPatterns, dmlDescr, h, ddlViolationMsg,
        List.filterMap_cons, List.filterMap_nil]

/-- Witness for C4's amended theorem at `DROP TABLE users`. -/
theorem C4_witness :
    validate cfgSettings dropTableSql true none false =
        Except.error (VError.injectionDetected (isSafeViolations dropTableSql false true)) ∧
      ddlViolationMsg ∈ isSafeViolations dropTableSql true false := by
  constructor
  · have h := (C4_sanitizer_surfaced_only_in_read_only_mode cfgSettings dropTableSql none false
      true true true).1 (by decide)
    simpa using h
  · exact (C4_sanitizer_surfaced_only_in_read_only_mode cfgSettings dropTableSql none false
      true true false).2.2 (by decide)

/-! ## Claim C7 -/

/-- C7: confirmed — any input whose parse yields a second statement after a
separator is rejected for every value of `read_only` (so nothing of it is
returned as validated SQL to execute); in write mode, where the sanitizer
result is only logged, the rejection is precisely the multi-statement
violation of the statement-count check. -/
theorem C7_multi_statement_always_rejected :
    ∀ (st : Settings) (sql : Str) (ro : Bool) (oq : Option Str) (sv : Bool),
      2 ≤ (splitStatements (stripStr sql)).length →
      (validate st sql ro oq sv).isOk = false ∧
      (ro = false →
        validate st sql ro oq sv =
          Except.error (VError.multipleStatements (splitStatements (stripStr sql)).length)) := by
  intro st sql ro oq sv h
  have hne : (stripStr sql).isEmpty = false := by
    cases he : (stripStr sql).isEmpty
    · rfl
    · exfalso
      rw [List.isEmpty_iff] at he
      rw [he] at h
      have : splitStatements ([] : Str) = [] := rfl
      rw [this] at h
      simp at h
  have hparsedne : (splitStatements (stripStr sql)).isEmpty = false := by
    cases hp : (splitStatements (stripStr sql)).isEmpty
    · rfl
    · exfalso
      rw [List.isEmpty_iff] at hp
      rw [hp] at h
      simp at h
  have h1lt : 1 < (splitStatements (stripStr sql)).length := by omega
  cases ro
  · have hres : validate st sql false oq sv =
        Except.error (VError.multipleStatements (splitStatements (stripStr sql)).length) := by
      simp [validate, hne, hparsedne, h1lt]
    exact ⟨by rw [hres]; rfl, fun _ => hres⟩
  · constructor
    · by_cases hv : isSafeViolations (stripStr sql) false true = []
      · have hres : validate st sql true oq sv =
            Except.error (VError.multipleStatements (splitStatements (stripStr sql)).length) := by
          simp [validate, hne, hv, hparsedne, h1lt]
        rw [hres]; rfl
      · have hres : validate st sql true oq sv =
            Except.error (VError.injectionDetected (isSafeViolations (stripStr sql) false true)) := by
          simp [validate, hne, hv, hparsedne, h1lt, List.isEmpty_iff]
        rw [hres]; rfl
    · intro hfalse
      exact absurd hfalse (by simp)

/-- Witness for C7 at the spec scenario input, in both modes. -/
theorem C7_witness :
    (splitStatements (stripStr multiStmtSql)).length = 2 ∧
      (validate cfgSettings multiStmtSql true none false).isOk = false ∧
      validate cfgSettings multiStmtSql false none false =
        Except.error (VError.multipleStatements 2) := by
  have hlen : (splitStatements (stripStr multiStmtSql)).length = 2 := by decide
  refine ⟨hlen, ?_, ?_⟩
  · exact (C7_multi_statement_always_rejected cfgSettings multiStmtSql true none false
      (by rw [hlen])).1
  · have h := (C7_multi_statement_always_rejected cfgSettings multiStmtSql false none false
      (by rw [hlen])).2 rfl
    rw [hlen] at h
    exact h

/-! ## Claim C8 -/

/-- C8: confirmed — in a 3-step plan whose first step is an existence check
with a positive `count` in the probe's first row, step 1's own result is
recorded, step 2 (`depends_on_previous`) is recorded as skipped with reason
"Entity already exists" and its SQL never reaches the executor, and step 3
(not `depends_on_previous`) is still executed normally: the executor trace is
exactly the validated SQL of steps 1 and 3. -/
theorem C8_exists_skips_dependent_next_but_runs_third :
    ∀ (validateF : Str → Except VError Str) (execF : Str → List Row)
      (s1 s2 s3 : PlanStep) (v1 v2 v3 : Str) (r1 : Row) (rrest : List Row) (p : String × Int),
      s1.check_existence = true → s1.step_number = 1 →
      s2.check_existence = false → s2.depends_on_previous = true →
      s3.check_existence = false → s3.depends_on_previous = false →
      validateF s1.sql = Except.ok v1 → validateF s2.sql = Except.ok v2 →
      validateF s3.sql = Except.ok v3 →
      execF v1 = r1 :: rrest →
      r1.find? (fun q => q.1 == countKey) = some p → 0 < p.2 →
      runPlan validateF execF [s1, s2, s3] =
        Except.ok
          ([QueryStepOut.mk s1.step_number v1 s1.explanation (some (r1 :: rrest)) false none,
            QueryStepOut.mk s2.step_number s2.sql s2.explanation none true
              (some entityExistsReason),
            QueryStepOut.mk s3.step_number v3 s3.explanation (some (execF v3)) false none],
           [v1, v3]) := by
  intro validateF execF s1 s2 s3 v1 v2 v3 r1 rrest p hc1 hn1 hc2 hd2 hc3 hd3 hv1 hv2 hv3 he1 hf hp
  have hex : entityExists (r1 :: rrest) = true := by
    simp [entityExists, hf, hp]
  simp [runPlan, runPlanGo, hc1, hn1, hc2, hd2, hc3, hd3, hv1, hv2, hv3, he1, hex, lastSkipped]

/-- Witness for C8 on a concrete 3-step plan with identity validation and an
executor returning `count = 1` for the probe. -/
theorem C8_witness :
    runPlan (fun s => Except.ok s)
        (fun s => if s == ("SELECT COUNT(*) AS count FROM users WHERE username = 'bob'".data)
          then [[(countKey, (1 : Int))]] else [])
        [PlanStep.mk 1 ("SELECT COUNT(*) AS count FROM users WHERE username = 'bob'".data)
           "probe" false true,
         PlanStep.mk 2 ("INSERT INTO users (username) VALUES ('bob')".data) "insert" true false,
         PlanStep.mk 3 ("SELECT id FROM users WHERE username = 'bob'".data) "fetch" false false] =
      Except.ok
        ([QueryStepOut.mk 1 ("SELECT COUNT(*) AS count FROM users WHERE username = 'bob'".data)
            "probe" (some [[(countKey, (1 : Int))]]) false none,
          QueryStepOut.mk 2 ("INSERT INTO users (username) VALUES ('bob')".data) "insert" none
            true (some entityExistsReason),
          QueryStepOut.mk 3 ("SELECT id FROM users WHERE username = 'bob'".data) "fetch"
            (some []) false none],
         ["SELECT COUNT(*) AS count FROM users WHERE username = 'bob'".data,
          "SELECT id FROM users WHERE username = 'bob'".data]) := by
  have h := C8_exists_skips_dependent_next_but_runs_third (fun s => Except.ok s)
    (fun s => if s == ("SELECT COUNT(*) AS count FROM users WHERE username = 'bob'".data)
      then [[(countKey, (1 : Int))]] else [])
    (PlanStep.mk 1 ("SELECT COUNT(*) AS count FROM users WHERE username = 'bob'".data)
      "probe" false true)
    (PlanStep.mk 2 ("INSERT INTO users (username) VALUES ('bob')".data) "insert" true false)
    (PlanStep.mk 3 ("SELECT id FROM users WHERE username = 'bob'".data) "fetch" false false)
    ("SELECT COUNT(*) AS count FROM users WHERE username = 'bob'".data)
    ("INSERT INTO users (username) VALUES ('bob')".data)
    ("SELECT id FROM users WHERE username = 'bob'".data)
    [(countKey, (1 : Int))] [] (countKey, (1 : Int))
    rfl rfl rfl rfl rfl rfl rfl rfl rfl (by decide) (by decide) (by decide)
  simpa using h

/-! ## Claim C10 -/

/-- C10: confirmed (implicit behaviour) — when the existence probe's first
row has no column literally named `count`, the runner derives
`entity_exists = false` whatever the row's values are, so the following
`depends_on_previous` step is executed rather than skipped. -/
theorem C10_missing_count_column_means_not_exists :
    ∀ (validateF : Str → Except VError Str) (execF : Str → List Row)
      (s1 s2 : PlanStep) (v1 v2 : Str) (r1 : Row) (rrest : List Row),
      s1.check_existence = true → s1.step_number = 1 →
      s2.check_existence = false → s2.depends_on_previous = true →
      validateF s1.sql = Except.ok v1 → validateF s2.sql = Except.ok v2 →
      execF v1 = r1 :: rrest →
      r1.find? (fun q => q.1 == countKey) = none →
      runPlan validateF execF [s1, s2] =
        Except.ok
          ([QueryStepOut.mk s1.step_number v1 s1.explanation (some (r1 :: rrest)) false none,
            QueryStepOut.mk s2.step_number v2 s2.explanation (some (execF v2)) false none],
           [v1, v2]) := by
  intro validateF execF s1 s2 v1 v2 r1 rrest hc1 hn1 hc2 hd2 hv1 hv2 he1 hf
  have hex : entityExists (r1 :: rrest) = false := by
    simp [entityExists, hf]
  simp [runPlan, runPlanGo, hc1, hn1, hc2, hd2, hv1, hv2, he1, hex, lastSkipped]

/-- Witness for C10: the probe returns one row whose count is projected under
the alias `user_count` with a positive value, yet the dependent insert step
still executes. -/
theorem C10_witness :
    runPlan (fun s => Except.ok s)
        (fun s => if s == ("SELECT COUNT(*) AS user_count FROM users".data)
          then [[("user_count", (5 : Int))]] else [])
        [PlanStep.mk 1 ("SELECT COUNT(*) AS user_count FROM users".data) "probe" false true,
         PlanStep.mk 2 ("INSERT INTO users (username) VALUES ('bob')".data) "insert" true false] =
      Except.ok
        ([QueryStepOut.mk 1 ("SELECT COUNT(*) AS user_count FROM users".data) "probe"
            (some [[("user_count", (5 : Int))]]) false none,
          QueryStepOut.mk 2 ("INSERT INTO users (username) VALUES ('bob')".data) "insert"
            (some []) false none],
         ["SELECT COUNT(*) AS user_count FROM users".data,
          "INSERT INTO users (username) VALUES ('bob')".data]) := by
  have h := C10_missing_count_column_means_not_exists (fun s => Except.ok s)
    (fun s => if s == ("SELECT COUNT(*) AS user_count FROM users".data)
      then [[("user_count", (5 : Int))]] else [])
    (PlanStep.mk 1 ("SELECT COUNT(*) AS user_count FROM users".data) "probe" false true)
    (PlanStep.mk 2 ("INSERT INTO users (username) VALUES ('bob')".data) "insert" true false)
    ("SELECT COUNT(*) AS user_count FROM users".data)
    ("INSERT INTO users (username) VALUES ('bob')".data)
    [("user_count", (5 : Int))] []
    rfl rfl rfl rfl rfl rfl (by decide) (by decide)
  simpa using h

/-! ## Claim C9 -/

/-- C9: counterexample to the claim as stated.  In a 2-step plan whose final
step is skipped, the last non-skipped step is step 1 — executed with SQL
`c9probe` and a recorded result — yet the plan reports the raw SQL of the
skipped final step (`c9insert`, not a validated form of anything executed)
and reports no execution result at all. -/
theorem C9_counterexample :
    runPlan (fun s => Except.ok s) c9exec c9plan = Except.ok (c9outs, [c9probe]) ∧
      reportPlan c9plan c9outs = (c9insert, none) ∧
      lastNonSkipped c9outs =
        some (QueryStepOut.mk 1 c9probe "probe" (some [[(countKey, (1 : Int))]]) false none) ∧
      ¬(c9insert = c9probe) := by
  exact ⟨by decide, by decide, by decide, by decide⟩

/-- Invariant of the plan loop: a recorded step marked skipped carries no
execution result (its SQL was never executed). -/
theorem runPlanGo_skipped_has_no_result :
    ∀ (validateF : Str → Except VError Str) (execF : Str → List Row)
      (allSteps steps : List PlanStep) (acc : List QueryStepOut) (trace : List Str)
      (outs : List QueryStepOut) (tr : List Str),
      (∀ q ∈ acc, q.skipped = true → q.execution_result = none) →
      runPlanGo validateF execF allSteps steps acc trace = Except.ok (outs, tr) →
      ∀ q ∈ outs, q.skipped = true → q.execution_result = none := by
  intro vF eF all steps
  induction steps with
  | nil =>
    intro acc trace outs tr hacc hrun
    simp only [runPlanGo, Except.ok.injEq, Prod.mk.injEq] at hrun
    rw [← hrun.1]
    exact hacc
  | cons s rest ih =>
    intro acc trace outs tr hacc hrun
    rw [runPlanGo] at hrun
    cases hv : vF s.sql with
    | error e => rw [hv] at hrun; simp at hrun
    | ok v =>
      rw [hv] at hrun
      dsimp only at hrun
      by_cases hce : s.check_existence = true
      · rw [if_pos hce] at hrun
        by_cases hcond :
            (entityExists (eF v) && decide (s.step_number < all.length)) = true
        · rw [if_pos hcond] at hrun
          cases hnext : all[s.step_number]? with
          | none =>
            rw [hnext] at hrun
            refine ih _ _ _ _ ?_ hrun
            intro q hq hsk
            rcases List.mem_append.mp hq with hq | hq
            · exact hacc q hq hsk
            · rw [List.mem_singleton.mp hq] at hsk
              simp at hsk
          | some next =>
            rw [hnext] at hrun
            dsimp only at hrun
            by_cases hdep : next.depends_on_previous = true
            · rw [if_pos hdep] at hrun
              refine ih _ _ _ _ ?_ hrun
              intro q hq hsk
              rcases List.mem_append.mp hq with hq | hq
              · rcases List.mem_append.mp hq with hq | hq
                · exact hacc q hq hsk
                · rw [List.mem_singleton.mp hq] at hsk
                  simp at hsk
              · rw [List.mem_singleton.mp hq]
            · rw [if_neg hdep] at hrun
              refine ih _ _ _ _ ?_ hrun
              intro q hq hsk
              rcases List.mem_append.mp hq with hq | hq
              · exact hacc q hq hsk
              · rw [List.mem_singleton.mp hq] at hsk
                simp at hsk
        · rw [if_neg hcond] at hrun
          refine ih _ _ _ _ ?_ hrun
          intro q hq hsk
          rcases List.mem_append.mp hq with hq | hq
          · exact hacc q hq hsk
          · rw [List.mem_singleton.mp hq] at hsk
            simp at hsk
      · rw [if_neg hce] at hrun
        by_cases hskip : (!acc.isEmpty && lastSkipped acc && s.depends_on_previous) = true
        · rw [if_pos hskip] at hrun
          exact ih _ _ _ _ hacc hrun
        · rw [if_neg hskip] at hrun
          refine ih _ _ _ _ ?_ hrun
          intro q hq hsk
          rcases List.mem_append.mp hq with hq | hq
          · exact hacc q hq hsk
          · rw [List.mem_singleton.mp hq] at hsk
            simp at hsk

/-- C9: amended — the externally reported SQL is the raw SQL of the final
plan step whether or not that step was skipped (not the validated form of the
last executed step), and the reported execution result is that of the last
recorded step, which is `none` whenever that step was skipped, because
skipped steps never carry a result. -/
theorem C9_report_uses_raw_final_step :
    ∀ (validateF : Str → Except VError Str) (execF : Str → List Row)
      (steps : List PlanStep) (outs : List QueryStepOut) (tr : List Str),
      runPlan validateF execF steps = Except.ok (outs, tr) →
      reportPlan steps outs =
        ((steps.getLast?.map (fun s => s.sql)).getD [],
          outs.getLast?.bind (fun q => q.execution_result)) ∧
      ∀ q ∈ outs, q.skipped = true → q.execution_result = none := by
  intro vF eF steps outs tr hrun
  constructor
  · unfold reportPlan
    cases outs.getLast? <;> rfl
  · exact runPlanGo_skipped_has_no_result vF eF steps steps [] [] outs tr (by simp) hrun

/-- Witness for C9's amended theorem at the concrete 2-step plan: the report
is the raw insert SQL with a `none` result. -/
theorem C9_witness :
    reportPlan c9plan c9outs = (c9insert, none) ∧
      (∀ q ∈ c9outs, q.skipped = true → q.execution_result = none) := by
  have h := C9_report_uses_raw_final_step (fun s => Except.ok s) c9exec c9plan c9outs [c9probe]
    (by decide)
  exact ⟨by decide, h.2⟩

/-! ## Claim C6 — LIMIT-enforcement lemmas

Character-class facts, append lemmas for `takeWhile`/`dropWhile`,
case-insensitive prefix lemmas, and the behaviour of `clampAll` /
`findLimitCI`, leading to idempotence of `enforce_limit`. -/

theorem toUpper_of_isWs {c : Char} (h : isWsChar c = true) : c.toUpper = c := by
  have h' : c = ' ' ∨ c = '\t' ∨ c = '\r' ∨ c = '\n' := by
    simpa [isWsChar, Char.isWhitespace, or_assoc] using h
  rcases h' with rfl | rfl | rfl | rfl <;> decide

theorem isDigit_toNat {c : Char} (h : isDigitChar c = true) :
    48 ≤ c.toNat ∧ c.toNat ≤ 57 := by
  simp only [isDigitChar, Char.isDigit, Bool.and_eq_true, decide_eq_true_eq, ge_iff_le] at h
  exact ⟨UInt32.le_toNat_of_le (by decide) h.1, UInt32.toNat_le_of_le (by decide) h.2⟩

theorem toUpper_of_isDigit {c : Char} (h : isDigitChar c = true) : c.toUpper = c := by
  have hv := isDigit_toNat h
  simp only [Char.toUpper]
  rw [if_neg]
  omega

theorem isWs_of_isDigit {c : Char} (h : isDigitChar c = true) : isWsChar c = false := by
  have hv := isDigit_toNat h
  cases hw : isWsChar c
  · rfl
  · exfalso
    have h' : c = ' ' ∨ c = '\t' ∨ c = '\r' ∨ c = '\n' := by
      simpa [isWsChar, Char.isWhitespace, or_assoc] using hw
    rcases h' with rfl | rfl | rfl | rfl <;> simp_all

theorem not_ws_of_toUpper_eq {c t : Char} (htw : isWsChar t = false) (h : c.toUpper = t) :
    isWsChar c = false := by
  cases hcw : isWsChar c
  · rfl
  · rw [toUpper_of_isWs hcw] at h
    rw [h] at hcw
    simp_all

theorem not_digit_of_toUpper_eq {c t : Char} (htd : isDigitChar t = false) (h : c.toUpper = t) :
    isDigitChar c = false := by
  cases hcd : isDigitChar c
  · rfl
  · rw [toUpper_of_isDigit hcd] at h
    rw [h] at hcd
    simp_all

theorem takeWhile_append_stop {p : Char → Bool} :
    ∀ (A : Str) {x : Char} (X : Str), p x = false →
      (A ++ x :: X).takeWhile p = A.takeWhile p := by
  intro A
  induction A with
  | nil => intro x X hx; simp [List.takeWhile, hx]
  | cons a A ih =>
    intro x X hx
    cases ha : p a
    · simp [List.takeWhile, ha]
    · simp only [List.cons_append, List.takeWhile, ha, List.append_eq]
      rw [ih _ hx]

theorem dropWhile_append_stop {p : Char → Bool} :
    ∀ (A : Str) {x : Char} (X : Str), p x = false →
      (A ++ x :: X).dropWhile p = A.dropWhile p ++ x :: X := by
  intro A
  induction A with
  | nil => intro x X hx; simp [List.dropWhile, hx]
  | cons a A ih =>
    intro x X hx
    cases ha : p a
    · simp [List.dropWhile, ha]
    · simp only [List.cons_append, List.dropWhile, ha, List.append_eq]
      rw [ih _ hx]

theorem takeWhile_append_all {p : Char → Bool} :
    ∀ (A : Str) (B : Str), (∀ c ∈ A, p c = true) →
      (A ++ B).takeWhile p = A ++ B.takeWhile p := by
  intro A
  induction A with
  | nil => intro B _; simp
  | cons a A ih =>
    intro B h
    have ha : p a = true := h a (by simp)
    simp only [List.cons_append, List.takeWhile, ha, List.append_eq]
    rw [ih B (fun c hc => h c (by simp [hc]))]

/-- Unfold equation for `natDigits`, independent of the fuel. -/
theorem natDigitsF_congr :
    ∀ (f f' n : Nat), n < f → n < f' → natDigitsF f n = natDigitsF f' n := by
  intro f
  induction f with
  | zero => intro f' n h; omega
  | succ f ih =>
    intro f' n hf hf'
    cases f' with
    | zero => omega
    | succ f' =>
      simp only [natDigitsF]
      by_cases h10 : n < 10
      · simp [h10]
      · simp only [h10, if_false]
        have hdiv : n / 10 < n := Nat.div_lt_self (by omega) (by omega)
        rw [ih f' (n / 10) (by omega) (by omega)]

theorem natDigits_eq (n : Nat) :
    natDigits n = if n < 10 then [digitChar n] else natDigits (n / 10) ++ [digitChar (n % 10)] := by
  show natDigitsF (n + 1) n = _
  simp only [natDigitsF]
  by_cases h10 : n < 10
  · simp [h10]
  · simp only [h10, if_false]
    have hdiv : n / 10 < n := Nat.div_lt_self (by omega) (by omega)
    rw [natDigitsF_congr n (n / 10 + 1) (n / 10) (by omega) (by omega)]
    rfl

theorem digitChar_isDigit (d : Nat) : isDigitChar (digitChar d) = true := by
  unfold digitChar
  rcases d with _ | _ | _ | _ | _ | _ | _ | _ | _ | d <;> rfl

theorem digitChar_toNat (d : Nat) (h : d < 10) : (digitChar d).toNat = 48 + d := by
  interval_cases d <;> decide

theorem natDigits_ne_nil (n : Nat) : natDigits n ≠ [] := by
  rw [natDigits_eq]
  by_cases h10 : n < 10
  · simp [h10]
  · simp [h10]

theorem natDigits_all_digit (n : Nat) : ∀ c ∈ natDigits n, isDigitChar c = true := by
  induction n using Nat.strong_induction_on with
  | _ n ih =>
    rw [natDigits_eq]
    by_cases h10 : n < 10
    · simp only [h10, if_true]
      intro c hc
      rw [List.mem_singleton.mp hc]
      exact digitChar_isDigit n
    · simp only [h10, if_false]
      intro c hc
      rcases List.mem_append.mp hc with hc | hc
      · exact ih (n / 10) (Nat.div_lt_self (by omega) (by omega)) c hc
      · rw [List.mem_singleton.mp hc]
        exact digitChar_isDigit (n % 10)

theorem parseNatDigits_append_one (A : Str) (c : Char) :
    parseNatDigits (A ++ [c]) = parseNatDigits A * 10 + (c.toNat - 48) := by
  simp [parseNatDigits, List.foldl_append]

theorem parse_natDigits (n : Nat) : parseNatDigits (natDigits n) = n := by
  induction n using Nat.strong_induction_on with
  | _ n ih =>
    rw [natDigits_eq]
    by_cases h10 : n < 10
    · simp only [h10, if_true]
      show parseNatDigits ([] ++ [digitChar n]) = n
      rw [parseNatDigits_append_one, digitChar_toNat n h10]
      simp [parseNatDigits]
    · simp only [h10, if_false]
      rw [parseNatDigits_append_one, ih (n / 10) (Nat.div_lt_self (by omega) (by omega)),
        digitChar_toNat (n % 10) (Nat.mod_lt n (by omega))]
      omega

theorem ciPrefixOf_append_self : ∀ (p r : Str), ciPrefixOf p (p ++ r) = true := by
  intro p
  induction p with
  | nil => intro r; rfl
  | cons a p ih => intro r; simp [ciPrefixOf, ih]

theorem ciPrefix_length : ∀ (p l : Str), ciPrefixOf p l = true → p.length ≤ l.length := by
  intro p
  induction p with
  | nil => intro l _; simp
  | cons a p ih =>
    intro l h
    cases l with
    | nil => exact absurd h (by simp [ciPrefixOf])
    | cons b t =>
      simp only [ciPrefixOf, Bool.and_eq_true] at h
      simpa using ih t h.2

theorem ciPrefix_append_left :
    ∀ (p A B : Str), p.length ≤ A.length → ciPrefixOf p (A ++ B) = ciPrefixOf p A := by
  intro p
  induction p with
  | nil => intro A B _; rfl
  | cons a p ih =>
    intro A B hlen
    cases A with
    | nil => simp at hlen
    | cons x A =>
      simp only [List.cons_append, ciPrefixOf, List.append_eq]
      rw [ih A B (by simpa using hlen)]

theorem ciPrefix_append_split :
    ∀ (A p B : Str), A.length ≤ p.length →
      ciPrefixOf p (A ++ B) =
        (ciPrefixOf (p.take A.length) A && ciPrefixOf (p.drop A.length) B) := by
  intro A
  induction A with
  | nil => intro p B _; simp [ciPrefixOf]
  | cons x A ih =>
    intro p B hlen
    cases p with
    | nil => simp at hlen
    | cons a p =>
      simp only [List.cons_append, ciPrefixOf, List.length_cons, List.take, List.drop,
        List.append_eq]
      rw [ih p B (by simpa using hlen)]
      simp [ciPrefixOf, Bool.and_assoc]

theorem ciEqL_of_ciPrefix :
    ∀ (p l : Str), ciPrefixOf p l = true → ciEqL (l.take p.length) p = true := by
  intro p
  induction p with
  | nil => intro l _; simp [ciEqL]
  | cons a p ih =>
    intro l h
    cases l with
    | nil => exact absurd h (by simp [ciPrefixOf])
    | cons b t =>
      simp only [ciPrefixOf, Bool.and_eq_true] at h
      simp only [List.length_cons, List.take, ciEqL, Bool.and_eq_true]
      refine ⟨?_, ih t h.2⟩
      simp only [beq_iff_eq] at h ⊢
      exact h.1.symm

theorem ciPrefix_congr :
    ∀ (p a b : Str), ciEqL a b = true → ciPrefixOf p a = ciPrefixOf p b := by
  intro p
  induction p with
  | nil => intro a b _; rfl
  | cons c p ih =>
    intro a b h
    cases a with
    | nil =>
      cases b with
      | nil => rfl
      | cons y ys => exact absurd h (by simp [ciEqL])
    | cons x xs =>
      cases b with
      | nil => exact absurd h (by simp [ciEqL])
      | cons y ys =>
        simp only [ciEqL, Bool.and_eq_true] at h
        simp only [ciPrefixOf]
        rw [ih xs ys h.2]
        simp only [beq_iff_eq] at h
        rw [h.1]

theorem dropWhile_head_false (p : Char → Bool) :
    ∀ r : Str, r.dropWhile p = [] ∨ p ((r.dropWhile p).headD ' ') = false := by
  intro r
  induction r with
  | nil => left; rfl
  | cons a t ih =>
    cases ha : p a
    · right
      simp [List.dropWhile, ha]
    · simpa [List.dropWhile, ha] using ih

theorem drop_takeWhile_length (p : Char → Bool) :
    ∀ r : Str, r.drop (r.takeWhile p).length = r.dropWhile p := by
  intro r
  induction r with
  | nil => rfl
  | cons a t ih =>
    cases ha : p a
    · simp [List.takeWhile, List.dropWhile, ha]
    · simpa [List.takeWhile, List.dropWhile, ha] using ih

theorem takeWhile_all {p : Char → Bool} (A : Str) (h : ∀ c ∈ A, p c = true) :
    A.takeWhile p = A := by
  have := takeWhile_append_all A [] h
  simpa using this

theorem limitSpanCI_some_elim {l : Str} {v n : Nat} (h : limitSpanCI l = some (v, n)) :
    ciPrefixOf limitWord l = true ∧
      (l.drop 5).takeWhile isWsChar ≠ [] ∧
      ((l.drop 5).dropWhile isWsChar).takeWhile isDigitChar ≠ [] ∧
      v = parseNatDigits (((l.drop 5).dropWhile isWsChar).takeWhile isDigitChar) ∧
      n = 5 + ((l.drop 5).takeWhile isWsChar).length +
          (((l.drop 5).dropWhile isWsChar).takeWhile isDigitChar).length := by
  rw [limitSpanCI] at h
  by_cases h1 : ciPrefixOf limitWord l = true
  · rw [if_pos h1] at h
    by_cases h2 : ((l.drop 5).takeWhile isWsChar).isEmpty = true
    · rw [if_pos h2] at h
      exact absurd h (by simp)
    · rw [if_neg h2] at h
      by_cases h3 : (((l.drop 5).dropWhile isWsChar).takeWhile isDigitChar).isEmpty = true
      · rw [if_pos h3] at h
        exact absurd h (by simp)
      · rw [if_neg h3] at h
        simp only [Option.some.injEq, Prod.mk.injEq] at h
        refine ⟨h1, ?_, ?_, h.1.symm, h.2.symm⟩
        · simpa [List.isEmpty_iff] using h2
        · simpa [List.isEmpty_iff] using h3
  · rw [if_neg h1] at h
    exact absurd h (by simp)

theorem limitSpanCI_none_of_prefix_false {l : Str} (h : ciPrefixOf limitWord l = false) :
    limitSpanCI l = none := by
  rw [limitSpanCI]
  rw [if_neg]
  rw [h]
  exact Bool.false_ne_true

theorem span_drop {l : Str} {v n : Nat} (h : limitSpanCI l = some (v, n)) :
    l.drop n = ((l.drop 5).dropWhile isWsChar).dropWhile isDigitChar := by
  obtain ⟨-, -, -, -, hn⟩ := limitSpanCI_some_elim h
  have h5 := drop_takeWhile_length isWsChar (l.drop 5)
  have h6 := drop_takeWhile_length isDigitChar ((l.drop 5).dropWhile isWsChar)
  rw [hn, ← h6, ← h5, List.drop_drop, List.drop_drop]

theorem natDigits_head_shape (m : Nat) :
    ∃ c0 nd', natDigits m = c0 :: nd' ∧ isDigitChar c0 = true := by
  cases hh : natDigits m with
  | nil => exact absurd hh (natDigits_ne_nil m)
  | cons c0 nd' =>
    refine ⟨c0, nd', rfl, ?_⟩
    exact natDigits_all_digit m c0 (by rw [hh]; simp)

theorem limitSpanCI_replacement (m : Nat) (C : Str)
    (hC : C = [] ∨ isDigitChar (C.headD ' ') = false) :
    limitSpanCI ((limitWord ++ (' ' :: natDigits m)) ++ C) =
      some (m, 6 + (natDigits m).length) := by
  obtain ⟨c0, nd', hnd, hc0⟩ := natDigits_head_shape m
  have hassoc : (limitWord ++ (' ' :: natDigits m)) ++ C =
      limitWord ++ (' ' :: (natDigits m ++ C)) := by simp
  rw [hassoc, limitSpanCI]
  rw [if_pos (ciPrefixOf_append_self limitWord (' ' :: (natDigits m ++ C)))]
  have hdrop : (limitWord ++ (' ' :: (natDigits m ++ C))).drop 5 = ' ' :: (natDigits m ++ C) := by
    rw [show (5 : Nat) = limitWord.length from rfl, List.drop_left]
  rw [hdrop]
  have htw : (' ' :: (natDigits m ++ C)).takeWhile isWsChar = [' '] := by
    rw [hnd]
    simp only [List.cons_append, List.takeWhile]
    rw [isWs_of_isDigit hc0]
    rfl
  have hdw : (' ' :: (natDigits m ++ C)).dropWhile isWsChar = natDigits m ++ C := by
    rw [hnd]
    simp only [List.cons_append, List.dropWhile]
    rw [isWs_of_isDigit hc0]
    rfl
  have hds : (natDigits m ++ C).takeWhile isDigitChar = natDigits m := by
    rcases hC with rfl | hCh
    · simpa using takeWhile_all (natDigits m) (natDigits_all_digit m)
    · cases hCc : C with
      | nil => simpa [hCc] using takeWhile_all (natDigits m) (natDigits_all_digit m)
      | cons x C' =>
        rw [hCc] at hCh
        rw [takeWhile_append_stop _ _ (by simpa using hCh)]
        exact takeWhile_all (natDigits m) (natDigits_all_digit m)
  simp only [htw, hdw, hds]
  rw [if_neg (by simp)]
  rw [if_neg (by simp [List.isEmpty_iff, natDigits_ne_nil m])]
  rw [parse_natDigits]
  simp [Nat.add_comm]

theorem span_some_shape {X : Str} {v n : Nat} (h : limitSpanCI X = some (v, n)) :
    ∃ x0 Xr, X = x0 :: Xr ∧ isWsChar x0 = false ∧ isDigitChar x0 = false ∧
      ciEqL (X.take 5) limitWord = true ∧ 5 ≤ X.length := by
  obtain ⟨hpre, -, -, -, -⟩ := limitSpanCI_some_elim h
  have hlen : 5 ≤ X.length := by
    have := ciPrefix_length limitWord X hpre
    simpa [limitWord] using this
  have hci : ciEqL (X.take 5) limitWord = true := by
    have := ciEqL_of_ciPrefix limitWord X hpre
    simpa [limitWord] using this
  cases X with
  | nil => simp at hlen
  | cons x0 Xr =>
    have hLW : limitWord = 'L' :: 'I' :: 'M' :: 'I' :: 'T' :: [] := rfl
    rw [hLW] at hpre
    simp only [ciPrefixOf, Bool.and_eq_true, beq_iff_eq] at hpre
    have hup : x0.toUpper = 'L' := by
      rw [← hpre.1]
      decide
    exact ⟨x0, Xr, rfl, not_ws_of_toUpper_eq (by decide) hup,
      not_digit_of_toUpper_eq (by decide) hup, hci, hlen⟩

theorem span_append_head_blocked (P : Str) {x0 : Char} (Xr : Str)
    (hw : isWsChar x0 = false) (hd : isDigitChar x0 = false) (hlen : 5 ≤ P.length) :
    limitSpanCI (P ++ x0 :: Xr) =
      (if ciPrefixOf limitWord P = true then
        (if ((P.drop 5).takeWhile isWsChar).isEmpty = true then none
         else if (((P.drop 5).dropWhile isWsChar).takeWhile isDigitChar).isEmpty = true then none
         else some (parseNatDigits (((P.drop 5).dropWhile isWsChar).takeWhile isDigitChar),
           5 + ((P.drop 5).takeWhile isWsChar).length +
             (((P.drop 5).dropWhile isWsChar).takeWhile isDigitChar).length))
       else none) := by
  rw [limitSpanCI]
  rw [ciPrefix_append_left limitWord P (x0 :: Xr) (by simpa [limitWord] using hlen)]
  have hdrop : (P ++ x0 :: Xr).drop 5 = P.drop 5 ++ x0 :: Xr :=
    List.drop_append_of_le_length hlen
  have e1 : (P.drop 5 ++ x0 :: Xr).takeWhile isWsChar = (P.drop 5).takeWhile isWsChar :=
    takeWhile_append_stop _ _ hw
  have e2 : (P.drop 5 ++ x0 :: Xr).dropWhile isWsChar =
      (P.drop 5).dropWhile isWsChar ++ x0 :: Xr := dropWhile_append_stop _ _ hw
  have e3 : ((P.drop 5).dropWhile isWsChar ++ x0 :: Xr).takeWhile isDigitChar =
      ((P.drop 5).dropWhile isWsChar).takeWhile isDigitChar := takeWhile_append_stop _ _ hd
  simp only [hdrop, e1, e2, e3]

theorem short_prefix_blocks {P X : Str} (hP : P ≠ []) (hlen : P.length < 5)
    (hX5 : 5 ≤ X.length) (hci : ciEqL (X.take 5) limitWord = true) :
    ciPrefixOf limitWord (P ++ X) = false := by
  rw [ciPrefix_append_split P limitWord X (by simpa [limitWord] using Nat.le_of_lt hlen)]
  have hx : ciPrefixOf (limitWord.drop P.length) X = false := by
    have hXsplit : X = X.take 5 ++ X.drop 5 := (List.take_append_drop 5 X).symm
    have hq : (limitWord.drop P.length).length ≤ (X.take 5).length := by
      rw [List.length_take]
      simp only [List.length_drop]
      have : limitWord.length = 5 := rfl
      omega
    conv_lhs => rw [hXsplit]
    rw [ciPrefix_append_left _ _ _ hq]
    rw [ciPrefix_congr _ _ _ hci]
    have h1 : P.length = 1 ∨ P.length = 2 ∨ P.length = 3 ∨ P.length = 4 := by
      have : P.length ≠ 0 := by
        intro h0
        exact hP (List.length_eq_zero.mp h0)
      omega
    rcases h1 with h1 | h1 | h1 | h1 <;> rw [h1] <;> decide
  rw [hx]
  simp

theorem span_append_congr (P : Str) {X Y : Str}
    (hX : (limitSpanCI X).isSome = true) (hY : (limitSpanCI Y).isSome = true)
    (hP : P ≠ []) :
    limitSpanCI (P ++ X) = limitSpanCI (P ++ Y) := by
  obtain ⟨vnx, hXs0⟩ := Option.isSome_iff_exists.mp hX
  obtain ⟨vnyy, hYs0⟩ := Option.isSome_iff_exists.mp hY
  obtain ⟨vx, nx⟩ := vnx
  obtain ⟨vy, ny⟩ := vnyy
  have hXs : limitSpanCI X = some (vx, nx) := hXs0
  have hYs : limitSpanCI Y = some (vy, ny) := hYs0
  obtain ⟨x0, Xr, hXe, hxw, hxd, hXci, hX5⟩ := span_some_shape hXs
  obtain ⟨y0, Yr, hYe, hyw, hyd, hYci, hY5⟩ := span_some_shape hYs
  by_cases hlen : 5 ≤ P.length
  · rw [hXe, hYe, span_append_head_blocked P Xr hxw hxd hlen,
      span_append_head_blocked P Yr hyw hyd hlen]
  · have hbx : ciPrefixOf limitWord (P ++ X) = false :=
      short_prefix_blocks hP (by omega) hX5 hXci
    have hby : ciPrefixOf limitWord (P ++ Y) = false :=
      short_prefix_blocks hP (by omega) hY5 hYci
    rw [limitSpanCI_none_of_prefix_false hbx, limitSpanCI_none_of_prefix_false hby]

theorem clampAllF_congr (m : Nat) :
    ∀ (f f' : Nat) (l : Str), l.length ≤ f → l.length ≤ f' →
      clampAllF m f l = clampAllF m f' l := by
  intro f
  induction f with
  | zero =>
    intro f' l hf hf'
    have : l = [] := List.length_eq_zero.mp (by omega)
    subst this
    cases f' <;> rfl
  | succ f ih =>
    intro f' l hf hf'
    cases l with
    | nil => cases f' <;> rfl
    | cons c t =>
      cases f' with
      | zero => simp at hf'
      | succ f' =>
        simp only [clampAllF]
        have hf2 : t.length ≤ f := by simpa using hf
        have hf2' : t.length ≤ f' := by simpa using hf'
        cases hs : limitSpanCI (c :: t) with
        | none =>
          dsimp only
          rw [ih f' t hf2 hf2']
        | some vn =>
          dsimp only
          rw [ih f' (t.drop (vn.2 - 1)) (by simp; omega) (by simp; omega)]

theorem clampAll_cons_none {m : Nat} {c : Char} {t : Str}
    (h : limitSpanCI (c :: t) = none) : clampAll m (c :: t) = c :: clampAll m t := by
  show clampAllF m (c :: t).length (c :: t) = c :: clampAllF m t.length t
  simp only [List.length_cons, clampAllF, h]

theorem clampAll_cons_span {m : Nat} {c : Char} {t : Str} {vn : Nat × Nat}
    (h : limitSpanCI (c :: t) = some vn) :
    clampAll m (c :: t) =
      (limitWord ++ (' ' :: natDigits m)) ++ clampAll m (t.drop (vn.2 - 1)) := by
  show clampAllF m (c :: t).length (c :: t) = _
  simp only [List.length_cons, clampAllF, h]
  rw [clampAllF_congr m t.length (t.drop (vn.2 - 1)).length (t.drop (vn.2 - 1))
    (by simp) (by simp)]
  rfl

theorem clampAll_head_shape (m : Nat) (r : Str) (hr : r = [] ∨ isDigitChar (r.headD ' ') = false) :
    clampAll m r = [] ∨ isDigitChar ((clampAll m r).headD ' ') = false := by
  cases r with
  | nil => left; rfl
  | cons c t =>
    cases hs : limitSpanCI (c :: t) with
    | none =>
      rw [clampAll_cons_none hs]
      right
      rcases hr with hr | hr
      · exact absurd hr (by simp)
      · simpa using hr
    | some vn =>
      rw [clampAll_cons_span hs]
      right
      rfl

theorem limitSpanCI_nil : limitSpanCI ([] : Str) = none := rfl

theorem findLimitCI_head_span {l : Str} {vn : Nat × Nat} (h : limitSpanCI l = some vn) :
    findLimitCI l = some vn.1 := by
  cases l with
  | nil => rw [limitSpanCI_nil] at h; exact absurd h (by simp)
  | cons c t => simp [findLimitCI, h]

theorem findLimitCI_head_none {c : Char} {t : Str} (h : limitSpanCI (c :: t) = none) :
    findLimitCI (c :: t) = findLimitCI t := by
  simp [findLimitCI, h]

theorem span_rest_shape {c : Char} {t : Str} {vn : Nat × Nat}
    (h : limitSpanCI (c :: t) = some vn) :
    t.drop (vn.2 - 1) = [] ∨ isDigitChar ((t.drop (vn.2 - 1)).headD ' ') = false := by
  obtain ⟨-, hw, hd, -, hn⟩ := limitSpanCI_some_elim h
  have hpos : 1 ≤ vn.2 := by
    rw [hn]
    omega
  have hdropc : t.drop (vn.2 - 1) = (c :: t).drop vn.2 := by
    cases hv : vn.2 with
    | zero => omega
    | succ k => simp
  rw [hdropc, span_drop h]
  exact dropWhile_head_false isDigitChar _

theorem spanNone_append_clamp (m : Nat) :
    ∀ (t P : Str), limitSpanCI (P ++ t) = none → limitSpanCI (P ++ clampAll m t) = none := by
  intro t
  induction t with
  | nil =>
    intro P h
    have hz : clampAll m ([] : Str) = [] := rfl
    rw [hz]
    simpa using h
  | cons d t' ih =>
    intro P h
    cases hs : limitSpanCI (d :: t') with
    | some vn =>
      rw [clampAll_cons_span hs]
      have hYspan := limitSpanCI_replacement m (clampAll m (t'.drop (vn.2 - 1)))
        (clampAll_head_shape m _ (span_rest_shape hs))
      have hPne : P ≠ [] := by
        intro h0
        rw [h0] at h
        simp only [List.nil_append] at h
        rw [h] at hs
        exact absurd hs (by simp)
      have hcongr := @span_append_congr P (d :: t')
        ((limitWord ++ (' ' :: natDigits m)) ++ clampAll m (t'.drop (vn.2 - 1)))
        (by rw [hs]; rfl) (by rw [hYspan]; rfl) hPne
      rw [← hcongr]
      exact h
    | none =>
      rw [clampAll_cons_none hs]
      have h2 : limitSpanCI ((P ++ [d]) ++ t') = none := by
        rw [List.append_assoc]
        simpa using h
      have h3 := ih (P ++ [d]) h2
      rw [List.append_assoc] at h3
      simpa using h3

theorem findLimit_clampAll (m : Nat) :
    ∀ (l : Str) (v : Nat), findLimitCI l = some v → findLimitCI (clampAll m l) = some m := by
  intro l
  induction l with
  | nil => intro v h; simp [findLimitCI] at h
  | cons c t ih =>
    intro v h
    cases hs : limitSpanCI (c :: t) with
    | some vn =>
      rw [clampAll_cons_span hs]
      have hspan := limitSpanCI_replacement m (clampAll m (t.drop (vn.2 - 1)))
        (clampAll_head_shape m _ (span_rest_shape hs))
      rw [findLimitCI_head_span hspan]
    | none =>
      rw [clampAll_cons_none hs]
      rw [findLimitCI_head_none hs] at h
      have hnone : limitSpanCI (c :: clampAll m t) = none := by
        have := spanNone_append_clamp m t [c] (by simpa using hs)
        simpa using this
      rw [findLimitCI_head_none hnone]
      exact ih v h

theorem ciPrefix_cons_head_ne {p0 c : Char} (h : (p0.toUpper == c.toUpper) = false)
    (ps l : Str) : ciPrefixOf (p0 :: ps) (c :: l) = false := by
  simp only [ciPrefixOf, h, Bool.false_and]

theorem containsSub_cons (x : Char) (u p : Str) :
    containsSub (x :: u) p = (p.isPrefixOf (x :: u) || containsSub u p) := by
  simp [containsSub, List.tails_cons]

theorem ciContains_cons (a : Char) (t p : Str) :
    ciContains (a :: t) p = (ciPrefixOf p (a :: t) || ciContains t p) := by
  simp [ciContains, List.tails_cons]

theorem ciPrefix_eq_prefix_upper :
    ∀ (p l : Str), (∀ c ∈ p, c.toUpper = c) → ciPrefixOf p l = p.isPrefixOf (upperStr l) := by
  intro p
  induction p with
  | nil => intro l _; simp [ciPrefixOf, List.isPrefixOf]
  | cons p0 ps ih =>
    intro l hp
    cases l with
    | nil => simp [ciPrefixOf, List.isPrefixOf, upperStr]
    | cons c cs =>
      simp only [ciPrefixOf, upperStr, List.map_cons, List.isPrefixOf]
      rw [hp p0 (by simp)]
      rw [ih cs (fun c hc => hp c (by simp [hc]))]
      rfl

theorem ciContains_eq_contains_upper :
    ∀ (l p : Str), (∀ c ∈ p, c.toUpper = c) → ciContains l p = containsSub (upperStr l) p := by
  intro l
  induction l with
  | nil =>
    intro p hp
    have h1 : ciContains ([] : Str) p = ciPrefixOf p [] := by simp [ciContains]
    have h2 : containsSub (upperStr []) p = p.isPrefixOf [] := by simp [containsSub, upperStr]
    rw [h1, h2]
    have := ciPrefix_eq_prefix_upper p [] hp
    simpa [upperStr] using this
  | cons c t ih =>
    intro p hp
    rw [ciContains_cons]
    show _ = containsSub (c.toUpper :: upperStr t) p
    rw [containsSub_cons]
    rw [ih p hp]
    have : ciPrefixOf p (c :: t) = p.isPrefixOf (c.toUpper :: upperStr t) := by
      have := ciPrefix_eq_prefix_upper p (c :: t) hp
      simpa [upperStr] using this
    rw [this]

theorem limitWord_upper_fixed : ∀ c ∈ limitWord, c.toUpper = c := by decide

theorem ciPrefix_extend {p x : Str} (h : ciPrefixOf p x = true) (y : Str) :
    ciPrefixOf p (x ++ y) = true := by
  induction p generalizing x with
  | nil => rfl
  | cons p0 ps ih =>
    cases x with
    | nil => exact absurd h (by simp [ciPrefixOf])
    | cons c cs =>
      simp only [ciPrefixOf, Bool.and_eq_true] at h
      simp only [List.cons_append, ciPrefixOf, Bool.and_eq_true]
      exact ⟨h.1, ih h.2⟩

theorem ciContains_nil_pat : ∀ l : Str, ciContains l [] = true := by
  intro l
  cases l with
  | nil => rfl
  | cons a t => rw [ciContains_cons]; rfl

theorem ciContains_extend {A p : Str} (h : ciContains A p = true) (B : Str) :
    ciContains (A ++ B) p = true := by
  induction A with
  | nil =>
    cases p with
    | nil => exact ciContains_nil_pat B
    | cons q qs =>
      exfalso
      simp [ciContains, ciPrefixOf] at h
  | cons a t ih =>
    rw [ciContains_cons] at h
    rw [List.cons_append, ciContains_cons]
    rcases Bool.or_eq_true_iff.mp h with h1 | h1
    · have h2 := ciPrefix_extend h1 B
      rw [show (a :: t) ++ B = a :: (t ++ B) from rfl] at h2
      rw [h2]
      rfl
    · rw [ih h1]
      simp

theorem rstripSemi_decomp (l : Str) : ∃ s, l = rstripSemi l ++ s := by
  refine ⟨(l.reverse.takeWhile (fun c => c = ';')).reverse, ?_⟩
  rw [rstripSemi]
  rw [← List.reverse_append]
  rw [List.takeWhile_append_dropWhile]
  rw [List.reverse_reverse]

theorem ciContains_of_findLimit : ∀ {l : Str} {v : Nat}, findLimitCI l = some v →
    ciContains l limitWord = true := by
  intro l
  induction l with
  | nil => intro v h; simp [findLimitCI] at h
  | cons c t ih =>
    intro v h
    cases hs : limitSpanCI (c :: t) with
    | some vn =>
      obtain ⟨hpre, -, -, -, -⟩ := limitSpanCI_some_elim hs
      rw [ciContains_cons, hpre]
      rfl
    | none =>
      rw [findLimitCI_head_none hs] at h
      rw [ciContains_cons, ih h]
      simp

theorem findLimit_of_append (d : Nat) :
    ∀ A : Str, ciContains A limitWord = false →
      findLimitCI (A ++ (' ' :: (limitWord ++ (' ' :: natDigits d)))) = some d := by
  intro A
  induction A with
  | nil =>
    intro _
    simp only [List.nil_append]
    have hsp : limitSpanCI (' ' :: (limitWord ++ (' ' :: natDigits d))) = none := by
      apply limitSpanCI_none_of_prefix_false
      exact ciPrefix_cons_head_ne (by decide) _ _
    rw [findLimitCI_head_none hsp]
    have hrepl := limitSpanCI_replacement d [] (Or.inl rfl)
    rw [List.append_nil] at hrepl
    rw [findLimitCI_head_span hrepl]
  | cons a A' ih =>
    intro hA
    rw [ciContains_cons] at hA
    have h1 : ciPrefixOf limitWord (a :: A') = false := by
      cases hx : ciPrefixOf limitWord (a :: A')
      · rfl
      · rw [hx] at hA; simp at hA
    have h2 : ciContains A' limitWord = false := by
      cases hx : ciContains A' limitWord
      · rfl
      · rw [hx] at hA; simp at hA
    have hsp : limitSpanCI ((a :: A') ++ (' ' :: (limitWord ++ (' ' :: natDigits d)))) = none := by
      apply limitSpanCI_none_of_prefix_false
      by_cases hlen5 : 5 ≤ (a :: A').length
      · rw [ciPrefix_append_left _ _ _ (by simpa [limitWord] using hlen5)]
        exact h1
      · have hlen4 : (a :: A').length ≤ 4 := by
          simp only [List.length_cons] at hlen5 ⊢
          omega
        have hll : limitWord.length = 5 := rfl
        rw [ciPrefix_append_split (a :: A') limitWord _ (by omega)]
        have hk : (a :: A').length = 1 ∨ (a :: A').length = 2 ∨ (a :: A').length = 3 ∨
            (a :: A').length = 4 := by
          simp only [List.length_cons] at hlen4 ⊢
          omega
        have hblock : ciPrefixOf (limitWord.drop (a :: A').length)
            (' ' :: (limitWord ++ (' ' :: natDigits d))) = false := by
          rcases hk with hk | hk | hk | hk <;> rw [hk] <;>
            exact ciPrefix_cons_head_ne (by decide) _ _
        rw [hblock]
        simp
    rw [show (a :: A') ++ (' ' :: (limitWord ++ (' ' :: natDigits d))) =
      a :: (A' ++ (' ' :: (limitWord ++ (' ' :: natDigits d)))) from rfl] at hsp
    rw [show (a :: A') ++ (' ' :: (limitWord ++ (' ' :: natDigits d))) =
      a :: (A' ++ (' ' :: (limitWord ++ (' ' :: natDigits d)))) from rfl]
    rw [findLimitCI_head_none hsp]
    exact ih h2

theorem enforce_limit_idem (st : Settings) (hdm : st.DEFAULT_QUERY_LIMIT ≤ st.MAX_QUERY_RESULTS)
    (sql : Str) : enforce_limit st (enforce_limit st sql) = enforce_limit st sql := by
  by_cases hc : containsSub (upperStr sql) limitWord = true
  · cases hf : findLimitCI sql with
    | none =>
      have hR : enforce_limit st sql = sql := by
        simp [enforce_limit, hc, hf]
      rw [hR]
      exact hR
    | some v =>
      by_cases hv : st.MAX_QUERY_RESULTS < v
      · have hR : enforce_limit st sql = clampAll st.MAX_QUERY_RESULTS sql := by
          simp [enforce_limit, hc, hf, hv]
        have hfr : findLimitCI (clampAll st.MAX_QUERY_RESULTS sql) =
            some st.MAX_QUERY_RESULTS := findLimit_clampAll _ sql v hf
        have hcr : containsSub (upperStr (clampAll st.MAX_QUERY_RESULTS sql)) limitWord = true := by
          rw [← ciContains_eq_contains_upper _ _ limitWord_upper_fixed]
          exact ciContains_of_findLimit hfr
        have hfin : enforce_limit st (clampAll st.MAX_QUERY_RESULTS sql) =
            clampAll st.MAX_QUERY_RESULTS sql := by
          simp [enforce_limit, hcr, hfr]
        rw [hR, hfin]
      · have hR : enforce_limit st sql = sql := by
          simp [enforce_limit, hc, hf, hv]
        rw [hR]
        exact hR
  · have hR : enforce_limit st sql =
        rstripSemi sql ++ (' ' :: (limitWord ++ (' ' :: natDigits st.DEFAULT_QUERY_LIMIT))) := by
      rw [enforce_limit, if_neg hc]
    have hciA : ciContains (rstripSemi sql) limitWord = false := by
      have hcsql : ciContains sql limitWord = false := by
        rw [ciContains_eq_contains_upper _ _ limitWord_upper_fixed]
        cases hx : containsSub (upperStr sql) limitWord
        · rfl
        · exact absurd hx hc
      obtain ⟨s, hdec⟩ := rstripSemi_decomp sql
      cases hx : ciContains (rstripSemi sql) limitWord
      · rfl
      · exfalso
        have hext := ciContains_extend hx s
        rw [← hdec] at hext
        rw [hext] at hcsql
        exact absurd hcsql (by simp)
    have hfR : findLimitCI (rstripSemi sql ++
        (' ' :: (limitWord ++ (' ' :: natDigits st.DEFAULT_QUERY_LIMIT)))) =
        some st.DEFAULT_QUERY_LIMIT := findLimit_of_append _ _ hciA
    have hcR : containsSub (upperStr (rstripSemi sql ++
        (' ' :: (limitWord ++ (' ' :: natDigits st.DEFAULT_QUERY_LIMIT))))) limitWord = true := by
      rw [← ciContains_eq_contains_upper _ _ limitWord_upper_fixed]
      exact ciContains_of_findLimit hfR
    have hfin : enforce_limit st (rstripSemi sql ++
        (' ' :: (limitWord ++ (' ' :: natDigits st.DEFAULT_QUERY_LIMIT)))) =
        rstripSemi sql ++ (' ' :: (limitWord ++ (' ' :: natDigits st.DEFAULT_QUERY_LIMIT))) := by
      simp [enforce_limit, hcR, hfR, show ¬(st.MAX_QUERY_RESULTS < st.DEFAULT_QUERY_LIMIT) from
        by omega]
    rw [hR, hfin]

theorem validate_ok_shape {st : Settings} {q : Str} {oq : Option Str} {sv : Bool} {out : Str}
    (h : validate st q true oq sv = Except.ok out) :
    out = enforce_limit st (stripStr q) ∨ out = stripStr q := by
  rw [validate] at h
  by_cases he : (stripStr q).isEmpty = true
  · rw [if_pos he] at h
    simp at h
  · rw [if_neg he] at h
    dsimp only at h
    by_cases h2 : (true && !(isSafeViolations (stripStr q) (!true) true).isEmpty) = true
    · rw [if_pos h2] at h
      simp at h
    · rw [if_neg h2] at h
      by_cases h3 : (splitStatements (stripStr q)).isEmpty = true
      · rw [if_pos h3] at h
        simp at h
      · rw [if_neg h3] at h
        by_cases h4 : 1 < (splitStatements (stripStr q)).length
        · rw [if_pos h4] at h
          simp at h
        · rw [if_neg h4] at h
          by_cases h5 : (is_select_statement ((splitStatements (stripStr q)).headD []) &&
              true) = true
          · rw [if_pos h5] at h
            simp only [Except.ok.injEq] at h
            exact Or.inl h.symm
          · rw [if_neg h5] at h
            simp only [Except.ok.injEq] at h
            exact Or.inr h.symm

/-- C6: counterexample to the claim as stated.  `SELECT drop` is a SELECT that
validates in read-only mode (the lone `drop` has no trailing whitespace, so
the DDL pattern does not fire) and receives the default LIMIT; but the
appended ` LIMIT 50` makes the DDL pattern `DROP\s+` match, so re-validating
the limit-adjusted SQL is rejected instead of returning the identical
string. -/
theorem C6_counterexample :
    validate (Settings.mk 100 50) ("SELECT drop".data) true none false =
        Except.ok ("SELECT drop LIMIT 50".data) ∧
      (validate (Settings.mk 100 50) ("SELECT drop LIMIT 50".data) true none false).isOk =
        false := by
  exact ⟨by decide, by decide⟩

/-- C6: amended — for a SELECT accepted by the read-only pipeline: a missing
LIMIT token gets the configured default appended; a first LIMIT value above
the configured maximum causes every LIMIT clause to be clamped to the
maximum; a LIMIT value within bounds leaves the SQL unchanged; the
enforcement itself is idempotent (given default ≤ max); and re-validating the
adjusted SQL, whenever it succeeds, returns the identical string with no
second LIMIT — but (per the counterexample) the re-validation may instead
reject the adjusted SQL when the appended clause creates a blocked pattern. -/
theorem C6_limit_default_clamp_preserve_idempotent :
    ∀ (st : Settings) (sql : Str) (oq : Option Str) (sv : Bool),
      st.DEFAULT_QUERY_LIMIT ≤ st.MAX_QUERY_RESULTS →
      stripStr sql = sql → sql ≠ [] →
      isSafeViolations sql false true = [] →
      splitStatements sql = [sql] →
      is_select_statement sql = true →
      stripStr (enforce_limit st sql) = enforce_limit st sql →
      validate st sql true oq sv = Except.ok (enforce_limit st sql) ∧
      (containsSub (upperStr sql) limitWord = false →
        enforce_limit st sql =
          rstripSemi sql ++ (' ' :: (limitWord ++ (' ' :: natDigits st.DEFAULT_QUERY_LIMIT)))) ∧
      (∀ v, findLimitCI sql = some v → st.MAX_QUERY_RESULTS < v →
        enforce_limit st sql = clampAll st.MAX_QUERY_RESULTS sql) ∧
      (∀ v, findLimitCI sql = some v → v ≤ st.MAX_QUERY_RESULTS →
        enforce_limit st sql = sql) ∧
      enforce_limit st (enforce_limit st sql) = enforce_limit st sql ∧
      (∀ out, validate st (enforce_limit st sql) true oq sv = Except.ok out →
        out = enforce_limit st sql) := by
  intro st sql oq sv hdm hstrip hne hsafe hsplit hsel hstrip2
  have hnemp : (stripStr sql).isEmpty = false := by
    rw [hstrip]
    cases hh : sql.isEmpty
    · rfl
    · exact absurd (List.isEmpty_iff.mp hh) hne
  refine ⟨?_, ?_, ?_, ?_, enforce_limit_idem st hdm sql, ?_⟩
  · rw [validate, if_neg (by rw [hnemp]; exact Bool.false_ne_true)]
    dsimp only
    rw [hstrip]
    simp only [Bool.not_true]
    rw [hsafe, hsplit]
    simp [hsel]
  · intro h
    simp [enforce_limit, h]
  · intro v hf hv
    have hct : containsSub (upperStr sql) limitWord = true := by
      rw [← ciContains_eq_contains_upper _ _ limitWord_upper_fixed]
      exact ciContains_of_findLimit hf
    simp [enforce_limit, hct, hf, hv]
  · intro v hf hv
    have hct : containsSub (upperStr sql) limitWord = true := by
      rw [← ciContains_eq_contains_upper _ _ limitWord_upper_fixed]
      exact ciContains_of_findLimit hf
    simp [enforce_limit, hct, hf, show ¬(st.MAX_QUERY_RESULTS < v) from by omega]
  · intro out hout
    have hsh := validate_ok_shape hout
    rw [hstrip2] at hsh
    rcases hsh with hsh | hsh
    · rw [enforce_limit_idem st hdm sql] at hsh
      exact hsh
    · exact hsh

/-- Witness for C6 at the spec scenario: `SELECT * FROM orders` with
`max_limit = 100`, `default_limit = 50` yields `SELECT * FROM orders
LIMIT 50`, and enforcement is idempotent there. -/
theorem C6_witness :
    validate (Settings.mk 100 50) ("SELECT * FROM orders".data) true none false =
        Except.ok ("SELECT * FROM orders LIMIT 50".data) ∧
      enforce_limit (Settings.mk 100 50)
          (enforce_limit (Settings.mk 100 50) ("SELECT * FROM orders".data)) =
        enforce_limit (Settings.mk 100 50) ("SELECT * FROM orders".data) := by
  have h := C6_limit_default_clamp_preserve_idempotent (Settings.mk 100 50)
    ("SELECT * FROM orders".data) none false (by decide) (by decide) (by decide) (by decide)
    (by decide) (by decide) (by decide)
  refine ⟨?_, h.2.2.2.2.1⟩
  have h1 := h.1
  have he : enforce_limit (Settings.mk 100 50) ("SELECT * FROM orders".data) =
      ("SELECT * FROM orders LIMIT 50".data) := by decide
  rw [he] at h1
  exact h1
